import Mathlib

/-!
Verification of the matching core of an ad-blocker engine.

Strings of the source language are embedded as Lean `String`s and the
string-walking routines operate on their underlying `List Char`.  Indexing
helpers mirror the source language semantics: out-of-range or negative
character accesses yield `none` (the source's undefined), `indexOf` yields
the leftmost occurrence or a miss, `substring`/`slice`/`substr` clamp their
arguments.
-/

/-- Character access mirroring source-language indexing: a negative or
out-of-range index yields `none`. -/
def charAt (l : List Char) (i : Int) : Option Char :=
  if i < 0 then none else l[i.toNat]?

/-- True when the option holds a dot character. -/
def isDot (c : Option Char) : Bool := c == some '.'

/-- Whether `pat` occurs in `hay` starting at position `i`. -/
def occursAt (pat hay : List Char) (i : Nat) : Bool :=
  pat.isPrefixOf (hay.drop i)

/-- Leftmost occurrence of `pat` in `hay` (source-language `indexOf`,
with `none` for the miss value -1). -/
def stringIndexOf (hay pat : List Char) : Option Nat :=
  (List.range (hay.length + 1)).find? (fun i => pat.isPrefixOf (hay.drop i))

/-- Boundary validation of a hostname occurrence exactly as the source's
`isAnchoredByHostname` writes it: a prefix-position branch or-ed with a
suffix/infix branch, both evaluated at the leftmost match index. -/
def boundaryCode (fh h : List Char) (i : Nat) : Bool :=
  (decide (i = 0) &&
    (decide (h.length = fh.length) ||
     isDot (charAt fh ((fh.length : Int) - 1)) ||
     isDot (charAt h (fh.length : Int))))
  ||
  ((isDot (charAt h ((i : Int) - 1)) || isDot (charAt fh 0)) &&
    (decide ((h.length : Int) - (i : Int) = (fh.length : Int)) ||
     isDot (charAt fh ((fh.length : Int) - 1)) ||
     isDot (charAt h ((i : Int) + (fh.length : Int)))))

/-- Source `isAnchoredByHostname`, on char lists. -/
def isAnchoredByHostnameL (fh h : List Char) : Bool :=
  if fh.length = 0 then true
  else if fh.length > h.length then false
  else
    match stringIndexOf h fh with
    | none => false
    | some matchIndex => boundaryCode fh h matchIndex

/-- Source `isAnchoredByHostname(filterHostname, hostname)`. -/
def isAnchoredByHostname (filterHostname hostname : String) : Bool :=
  isAnchoredByHostnameL filterHostname.data hostname.data

/-- Boundary rules as the specification states them: an occurrence at
position 0 is validated by the prefix rules, an occurrence elsewhere by the
preceding-character rule conjoined with the suffix/dot rules. -/
def boundarySpec (fh h : List Char) (i : Nat) : Bool :=
  if i = 0 then
    decide (h.length = fh.length) ||
    isDot (charAt fh ((fh.length : Int) - 1)) ||
    isDot (charAt h (fh.length : Int))
  else
    (isDot (charAt h ((i : Int) - 1)) || isDot (charAt fh 0)) &&
    (decide ((h.length : Int) - (i : Int) = (fh.length : Int)) ||
     isDot (charAt fh ((fh.length : Int) - 1)) ||
     isDot (charAt h ((i : Int) + (fh.length : Int))))

/-- The anchoring predicate as described by the specification: empty filter
hostname always matches, a longer filter hostname never does, otherwise the
leftmost occurrence must satisfy the position-dependent boundary rules. -/
def anchoredSpec (filterHostname hostname : String) : Bool :=
  let fh := filterHostname.data
  let h := hostname.data
  if fh.length = 0 then true
  else if fh.length > h.length then false
  else
    match stringIndexOf h fh with
    | none => false
    | some matchIndex => boundarySpec fh h matchIndex

/-- Leftmost index of value `c` in `l` (source-language `indexOf` on the
signature arrays). -/
def idxOf : List Nat → Nat → Option Nat
  | [], _ => none
  | x :: xs, c => if x = c then some 0 else (idxOf xs c).map (· + 1)

/-- Source-language `indexOf(c, start)`: leftmost index of `c` at or after
position `start`. -/
def indexOfFrom (l : List Nat) (c start : Nat) : Option Nat :=
  (idxOf (l.drop start) c).map (fun j => start + j)

/-- The cursor-walking loop of `checkPatternFuzzyFilter`: each filter
symbol is searched for starting one position past the previous find. -/
def fuzzyLoop (rsig : List Nat) : List Nat → Nat → Bool
  | [], _ => true
  | c :: rest, lastIndex =>
    match indexOfFrom rsig c lastIndex with
    | none => false
    | some j => fuzzyLoop rsig rest (j + 1)

/-- The signature comparison of `checkPatternFuzzyFilter`: fail at once if
the filter signature is longer, otherwise run the cursor loop from 0. -/
def fuzzyMatch (signature rsig : List Nat) : Bool :=
  if signature.length > rsig.length then false
  else fuzzyLoop rsig signature 0

/-- Read-only view of a compiled network filter: the shape flags, party
flags, option sets, literal pattern, anchor hostname, fuzzy signature and
compiled pattern matcher exposed by the accessors the matcher consumes.
The compiled regex is an opaque string predicate supplied externally. -/
structure NetworkFilter where
  isHostnameAnchor : Bool
  isRegex : Bool
  isLeftAnchor : Bool
  isRightAnchor : Bool
  isFuzzy : Bool
  filter : String
  hostname : String
  fuzzySignature : List Nat
  regex : String → Bool
  isCptAllowed : Nat → Bool
  firstParty : Bool
  thirdParty : Bool
  hasOptDomains : Bool
  optDomains : List String
  hasOptNotDomains : Bool
  optNotDomains : List String

/-- A request under evaluation; `fuzzySignature` is the lazily memoized
signature cache, `none` until first needed. -/
structure IRequest where
  url : String
  hostname : String
  sourceHostname : String
  sourceGD : String
  hostGD : String
  cpt : Nat
  fuzzySignature : Option (List Nat)

/-- Source `getUrlAfterHostname`: the URL suffix past the first occurrence
of `hostname` in `url` (`indexOf` misses are the source's -1, making the
cut position `hostname.length - 1`). -/
def getUrlAfterHostname (url hostname : String) : String :=
  let idx : Int :=
    match stringIndexOf url.data hostname.data with
    | none => -1
    | some i => (i : Int)
  String.mk (url.data.drop (idx + (hostname.data.length : Int)).toNat)

/-- Source `checkPatternFuzzyFilter`: memoize the request signature on
first use, then run the subsequence matcher.  `csig` stands for the
external `createFuzzySignature`.  Returns the verdict together with the
(possibly cache-updated) request. -/
def checkPatternFuzzyFilter (csig : String → List Nat) (filter : NetworkFilter)
    (request : IRequest) : Bool × IRequest :=
  match request.fuzzySignature with
  | some s => (fuzzyMatch filter.fuzzySignature s, request)
  | none =>
    let s := csig request.url
    (fuzzyMatch filter.fuzzySignature s,
      { request with fuzzySignature := some s })

/-- Source `checkPatternPlainFilter`: the literal pattern occurs somewhere
in the URL. -/
def checkPatternPlainFilter (filter : NetworkFilter) (request : IRequest) : Bool :=
  (stringIndexOf request.url.data filter.filter.data).isSome

/-- Source `checkPatternRightAnchorFilter`: URL ends with the pattern. -/
def checkPatternRightAnchorFilter (filter : NetworkFilter) (request : IRequest) : Bool :=
  filter.filter.data.isSuffixOf request.url.data

/-- Source `checkPatternLeftAnchorFilter`: URL starts with the pattern
(external fastStartsWith, modelled from the spec as the plain
starts-with test). -/
def checkPatternLeftAnchorFilter (filter : NetworkFilter) (request : IRequest) : Bool :=
  filter.filter.data.isPrefixOf request.url.data

/-- Source `checkPatternLeftRightAnchorFilter`: URL equals the pattern. -/
def checkPatternLeftRightAnchorFilter (filter : NetworkFilter) (request : IRequest) : Bool :=
  request.url == filter.filter

/-- Source `checkPatternRegexFilter`: run the compiled pattern on the URL. -/
def checkPatternRegexFilter (filter : NetworkFilter) (request : IRequest) : Bool :=
  filter.regex request.url

/-- Source `checkPatternHostnameAnchorRegexFilter`: anchor-check the
hostname, then run the compiled pattern on the URL with the matched
hostname prefix removed. -/
def checkPatternHostnameAnchorRegexFilter (filter : NetworkFilter)
    (request : IRequest) : Bool :=
  if isAnchoredByHostname filter.hostname request.hostname then
    checkPatternRegexFilter filter
      { request with url := getUrlAfterHostname request.url filter.hostname }
  else false

/-- Source `checkPatternHostnameRightAnchorFilter`: anchor-check the
hostname; the URL part after it must equal the pattern exactly. -/
def checkPatternHostnameRightAnchorFilter (filter : NetworkFilter)
    (request : IRequest) : Bool :=
  if isAnchoredByHostname filter.hostname request.hostname then
    filter.filter == getUrlAfterHostname request.url filter.hostname
  else false

/-- Source `checkPatternHostnameAnchorFilter`: anchor-check the hostname;
the URL part after it must start with the pattern. -/
def checkPatternHostnameAnchorFilter (filter : NetworkFilter)
    (request : IRequest) : Bool :=
  if isAnchoredByHostname filter.hostname request.hostname then
    filter.filter.data.isPrefixOf (getUrlAfterHostname request.url filter.hostname).data
  else false

/-- Source `checkPatternHostnameAnchorFuzzyFilter`: anchor-check the
hostname, then run the fuzzy matcher (which may install the signature
cache). -/
def checkPatternHostnameAnchorFuzzyFilter (csig : String → List Nat)
    (filter : NetworkFilter) (request : IRequest) : Bool × IRequest :=
  if isAnchoredByHostname filter.hostname request.hostname then
    checkPatternFuzzyFilter csig filter request
  else (false, request)

/-- Source `checkPattern`: dispatch on the filter's shape flags to exactly
one of the specialized strategies. -/
def checkPattern (csig : String → List Nat) (filter : NetworkFilter)
    (request : IRequest) : Bool × IRequest :=
  if filter.isHostnameAnchor then
    if filter.isRegex then (checkPatternHostnameAnchorRegexFilter filter request, request)
    else if filter.isRightAnchor then
      (checkPatternHostnameRightAnchorFilter filter request, request)
    else if filter.isFuzzy then checkPatternHostnameAnchorFuzzyFilter csig filter request
    else (checkPatternHostnameAnchorFilter filter request, request)
  else if filter.isRegex then (checkPatternRegexFilter filter request, request)
  else if filter.isLeftAnchor && filter.isRightAnchor then
    (checkPatternLeftRightAnchorFilter filter request, request)
  else if filter.isLeftAnchor then (checkPatternLeftAnchorFilter filter request, request)
  else if filter.isRightAnchor then (checkPatternRightAnchorFilter filter request, request)
  else if filter.isFuzzy then checkPatternFuzzyFilter csig filter request
  else (checkPatternPlainFilter filter request, request)

/-- Source `checkOptions`: content-policy-type admission, first/third
party admission, then allow-domain and deny-domain membership, as one
short-circuiting conjunction.  The option sets are membership-tested
string sets. -/
def checkOptions (filter : NetworkFilter) (request : IRequest) : Bool :=
  filter.isCptAllowed request.cpt &&
  (let isFirstParty := request.sourceGD == request.hostGD
   !(!filter.firstParty && isFirstParty) &&
   !(!filter.thirdParty && !isFirstParty) &&
   !(filter.hasOptDomains && decide (0 < filter.optDomains.length) &&
     !(filter.optDomains.contains request.sourceGD ||
       filter.optDomains.contains request.sourceHostname)) &&
   !(filter.hasOptNotDomains && decide (0 < filter.optNotDomains.length) &&
     (filter.optNotDomains.contains request.sourceGD ||
      filter.optNotDomains.contains request.sourceHostname)))

/-- Source `matchNetworkFilter`: options first, and only when they pass
run the pattern dispatcher (whose fuzzy branches may install the request's
signature cache). -/
def matchNetworkFilter (csig : String → List Nat) (filter : NetworkFilter)
    (request : IRequest) : Bool × IRequest :=
  if checkOptions filter request then checkPattern csig filter request
  else (false, request)

/-- Hostname-anchored plain filter with hostname example.com and pattern
/ads, used by the dispatch examples. -/
def exampleAdsFilter : NetworkFilter where
  isHostnameAnchor := true
  isRegex := false
  isLeftAnchor := false
  isRightAnchor := false
  isFuzzy := false
  filter := "/ads"
  hostname := "example.com"
  fuzzySignature := []
  regex := fun _ => false
  isCptAllowed := fun _ => true
  firstParty := true
  thirdParty := true
  hasOptDomains := false
  optDomains := []
  hasOptNotDomains := false
  optNotDomains := []

/-- Request for the matching dispatch example. -/
def exampleAdsRequest : IRequest where
  url := "https://example.com/ads/banner.png"
  hostname := "example.com"
  sourceHostname := "example.com"
  sourceGD := "example.com"
  hostGD := "example.com"
  cpt := 0
  fuzzySignature := none

/-- Allow-domain filter for the C7 witness. -/
def allowDomainFilter : NetworkFilter where
  isHostnameAnchor := false
  isRegex := false
  isLeftAnchor := false
  isRightAnchor := false
  isFuzzy := false
  filter := ""
  hostname := ""
  fuzzySignature := []
  regex := fun _ => true
  isCptAllowed := fun _ => true
  firstParty := true
  thirdParty := true
  hasOptDomains := true
  optDomains := ["allowed.com"]
  hasOptNotDomains := false
  optNotDomains := []

/-- Unrelated-source request for the C7 witness. -/
def outsideRequest : IRequest where
  url := "https://tracker.net/pixel"
  hostname := "tracker.net"
  sourceHostname := "news.site.org"
  sourceGD := "site.org"
  hostGD := "tracker.net"
  cpt := 0
  fuzzySignature := none

/-- The request signature the fuzzy matcher effectively uses: the cached
one if installed, otherwise the one derived from the URL. -/
def effSig (csig : String → List Nat) (r : IRequest) : List Nat :=
  match r.fuzzySignature with
  | some s => s
  | none => csig r.url

/-- Modelled from the spec: the bit-test helper declared by the external
utils module; the flag bits of a cosmetic filter are stored in a packed
integer mask. -/
def getBit (n mask : Nat) : Bool := n &&& mask != 0

/-- Modelled from the spec: the bit-set helper declared by the external
utils module. -/
def setBit (n mask : Nat) : Nat := n ||| mask

/-- COSMETICS_MASK.unhide. -/
def maskUnhide : Nat := 1

/-- COSMETICS_MASK.scriptInject. -/
def maskScriptInject : Nat := 2

/-- COSMETICS_MASK.scriptBlock. -/
def maskScriptBlock : Nat := 4

/-- A parsed cosmetic filter: id (hash of the raw line), packed flag mask,
selector text, comma-joined hostnames text, and the lazily cached
hostnames array (`none` until first requested). -/
structure CosmeticFilter where
  id : Nat
  mask : Nat
  selector : String
  hostnames : String
  hostnamesArray : Option (List String)
  deriving DecidableEq

/-- CosmeticFilter.isUnhide. -/
def isUnhide (f : CosmeticFilter) : Bool := getBit f.mask maskUnhide

/-- CosmeticFilter.isScriptInject. -/
def isScriptInject (f : CosmeticFilter) : Bool := getBit f.mask maskScriptInject

/-- CosmeticFilter.isScriptBlock. -/
def isScriptBlock (f : CosmeticFilter) : Bool := getBit f.mask maskScriptBlock

/-- CosmeticFilter.hasHostnames: source-language truthiness of the
hostnames string. -/
def hasHostnames (f : CosmeticFilter) : Bool := f.hostnames != ""

/-- Source-language two-argument `substring`: both cut points clamped into
range and swapped when out of order. -/
def jsSubstring (s : List Char) (a b : Int) : List Char :=
  let len : Int := (s.length : Int)
  let aC := min (max a 0) len
  let bC := min (max b 0) len
  let lo := min aC bC
  let hi := max aC bC
  (s.take hi.toNat).drop lo.toNat

/-- Source-language `substr(start)` for a non-negative start: the suffix
from that position (every call site passes a start of at least 1). -/
def jsSubstrFrom (s : List Char) (a : Int) : List Char := s.drop a.toNat

/-- Stable insertion of a string into a list sorted by decreasing length,
matching the comparator used by CosmeticFilter.getHostnames. -/
def insertByLengthDesc (x : String) : List String → List String
  | [] => [x]
  | y :: ys =>
    if y.length < x.length then x :: y :: ys else y :: insertByLengthDesc x ys

/-- Hostnames sorted from longer to shorter, stable, as
CosmeticFilter.getHostnames sorts them. -/
def sortByLengthDesc (l : List String) : List String :=
  l.foldr insertByLengthDesc []

/-- CosmeticFilter.getHostnames: split the raw hostnames on commas and
sort by decreasing length, computing the array once and caching it;
returns the array together with the (possibly cache-updated) filter. -/
def getHostnames (f : CosmeticFilter) : List String × CosmeticFilter :=
  match f.hostnamesArray with
  | some arr => (arr, f)
  | none =>
    let arr :=
      if hasHostnames f then sortByLengthDesc (f.hostnames.splitOn ",")
      else []
    (arr, { f with hostnamesArray := some arr })

/-- The parsing phase of `parseCosmeticFilter` up to (not including) the
exception checks: locate the separator, consume an optional unhide marker,
cut out the hostnames prefix and the selector candidate, and process the
script:inject / script:contains sub-grammar.  Yields (mask, selector,
hostnames). -/
def cosmeticParse1 (line : String) : Nat × String × String :=
  let l := line.data
  let sharpIndex : Int :=
    match stringIndexOf l ['#'] with
    | none => -1
    | some i => (i : Int)
  let afterSharpIndex := sharpIndex + 1
  let unhide := charAt l afterSharpIndex == some '@'
  let mask1 := if unhide then setBit 0 maskUnhide else 0
  let suffixStartIndex := if unhide then afterSharpIndex + 2 else afterSharpIndex + 1
  let hostnames := if sharpIndex > 0 then jsSubstring l 0 sharpIndex else []
  let selector0 := jsSubstrFrom l suffixStartIndex
  let result :=
    if "script:".data.isPrefixOf selector0 then
      let scriptSelectorIndexEnd : Int := (selector0.length : Int) - 1
      if "inject(".data.isPrefixOf (selector0.drop 7) then
        (setBit mask1 maskScriptInject,
          jsSubstring selector0 14 scriptSelectorIndexEnd)
      else if "contains(".data.isPrefixOf (selector0.drop 7) then
        let isRegexArg :=
          charAt selector0 16 == some '/' &&
          charAt selector0 (scriptSelectorIndexEnd - 1) == some '/'
        if isRegexArg then
          (setBit mask1 maskScriptBlock,
            jsSubstring selector0 17 (scriptSelectorIndexEnd - 1))
        else
          (setBit mask1 maskScriptBlock,
            jsSubstring selector0 16 scriptSelectorIndexEnd)
      else (mask1, jsSubstring selector0 7 scriptSelectorIndexEnd)
    else (mask1, selector0)
  (result.1, String.mk result.2, String.mk hostnames)

/-- The exception checks of `parseCosmeticFilter`: empty selector,
selector ending in a closing curly bracket, selector still containing a
double-sharp separator, or an unhide filter without hostname scope. -/
def cosmeticExceptions (mask : Nat) (selector hostnames : String) : Bool :=
  decide (selector.data.length = 0) ||
  ['}'].isSuffixOf selector.data ||
  (stringIndexOf selector.data ['#', '#']).isSome ||
  (getBit mask maskUnhide && decide (hostnames.data.length = 0))

/-- Source `parseCosmeticFilter`: run the parsing phase, then drop the
line when any exception check fires; otherwise build the filter with the
hashed line as id.  The external 32-bit line hash is passed in as
`hash`. -/
def parseCosmeticFilter (hash : String → Nat) (line : String) : Option CosmeticFilter :=
  let parsed := cosmeticParse1 line
  if cosmeticExceptions parsed.1 parsed.2.1 parsed.2.2 then none
  else some ⟨hash line, parsed.1, parsed.2.1, parsed.2.2, none⟩

/-- The three CSS combinator characters the tokenizer splits on. -/
def isCombinator (c : Char) : Bool := c == '+' || c == '>' || c == '~'

/-- The first loop of `getTokensSelector`: scan the selector from the end
and stop at the first combinator found (index 0 when there is none).  No
bracket tracking happens in this scan. -/
def lastCombinator (s : List Char) : Nat :=
  match (List.range s.length).reverse.find? (fun i => isCombinator (s.getD i ' ')) with
  | some i => i
  | none => 0

/-- One iteration of the second loop of `getTokensSelector`: on an opening
square bracket, emit the pending slice when at depth zero, then go deeper;
on a closing square bracket, go up and restart the pending slice after
it. -/
def tokensStep (tok : String → List Nat) (s : List Char)
    (acc : Int × Nat × List Nat) (i : Nat) : Int × Nat × List Nat :=
  let inside := acc.1
  let start := acc.2.1
  let tokens := acc.2.2
  let c := s.getD i ' '
  if c == '[' then
    (inside + 1, start,
      if inside == 0 && decide (start < i) then
        tokens ++ tok (String.mk ((s.take i).drop start))
      else tokens)
  else if c == ']' then (inside - 1, i + 1, tokens)
  else (inside, start, tokens)

/-- The second loop and final emission of `getTokensSelector`, run from a
given split point: walk the selector from the split point, emitting the
slices outside bracketed spans, and emit the trailing slice only when the
depth counter is back to zero. -/
def tokensFromSplit (tok : String → List Nat) (s : List Char) (sepIndex : Nat) :
    List Nat :=
  let res := (List.range' sepIndex (s.length - sepIndex)).foldl
    (tokensStep tok s) (0, sepIndex, [])
  if res.1 == 0 && decide (res.2.1 < s.length) then
    res.2.2 ++ tok (String.mk ((s.take s.length).drop res.2.1))
  else res.2.2

/-- Source `CosmeticFilter.getTokensSelector`: script filters produce no
tokens; otherwise tokenize from the last combinator found by the
end-to-start scan.  `tok` stands for the external `tokenizeCSS`. -/
def getTokensSelector (tok : String → List Nat) (f : CosmeticFilter) : List Nat :=
  if isScriptInject f || isScriptBlock f then []
  else tokensFromSplit tok f.selector.data (lastCombinator f.selector.data)

/-- The end-to-start combinator scan as the specification words it:
track bracket depth while scanning backwards and only accept a combinator
sitting at depth zero. -/
def tlcGo (s : List Char) : List Nat → Int → Option Nat
  | [], _ => none
  | i :: rest, depth =>
    let c := s.getD i ' '
    if c == ']' then tlcGo s rest (depth + 1)
    else if c == '[' then tlcGo s rest (depth - 1)
    else if isCombinator c && depth == 0 then some i
    else tlcGo s rest depth

/-- Split point according to the specification: the last top-level
combinator (index 0 when there is none). -/
def lastTopLevelCombinator (s : List Char) : Nat :=
  (tlcGo s (List.range s.length).reverse 0).getD 0

/-- The selector tokenizer as the claim describes it: split at the last
top-level combinator (bracket depth tracked during the scan), then
tokenize the remainder excluding bracketed spans. -/
def getTokensSelectorSpec (tok : String → List Nat) (f : CosmeticFilter) : List Nat :=
  if isScriptInject f || isScriptBlock f then []
  else tokensFromSplit tok f.selector.data (lastTopLevelCombinator f.selector.data)

/-- First index satisfying a predicate (declarative helper for the
amended combinator-scan characterization). -/
def idxOfP (p : Char → Bool) : List Char → Option Nat
  | [] => none
  | x :: xs => if p x then some 0 else (idxOfP p xs).map (· + 1)

/-- Split point of the amended claim: the last combinator anywhere in the
selector, with no bracket tracking — phrased as the first combinator of
the reversed selector. -/
def lastCombinatorAmended (s : List Char) : Nat :=
  match idxOfP isCombinator s.reverse with
  | some k => s.length - 1 - k
  | none => 0

/-- The selector tokenizer as amended: split at the last combinator
character anywhere (no bracket tracking in that scan), then tokenize the
remainder excluding bracketed spans, the trailing slice only when the
depth counter from the split point ends at zero. -/
def getTokensSelectorAmended (tok : String → List Nat) (f : CosmeticFilter) :
    List Nat :=
  if isScriptInject f || isScriptBlock f then []
  else tokensFromSplit tok f.selector.data (lastCombinatorAmended f.selector.data)

theorem bool_absorb (a b : Bool) : (a || (b && a)) = a := by
  cases a <;> cases b <;> rfl

theorem boundary_eq (fh h : List Char) (i : Nat) :
    boundaryCode fh h i = boundarySpec fh h i := by
  unfold boundaryCode boundarySpec
  cases i with
  | zero =>
    have h1 : charAt h ((0 : Nat) - 1 : Int) = none := by
      unfold charAt
      norm_num
    have h2 : ((0 : Nat) : Int) + (fh.length : Int) = (fh.length : Int) := by
      norm_num
    have h3 : decide ((h.length : Int) - ((0 : Nat) : Int) = (fh.length : Int))
        = decide (h.length = fh.length) := by
      simp
    simp only [h1, h2, h3, if_pos rfl, if_true, decide_True, Bool.true_and, isDot]
    have h4 : ((none : Option Char) == some '.') = false := rfl
    rw [h4, Bool.false_or]
    exact bool_absorb _ _
  | succ n =>
    have h1 : decide (n + 1 = 0) = false := by simp
    rw [h1, Bool.false_and, Bool.false_or, if_neg (Nat.succ_ne_zero n)]

theorem anchored_eq_spec (fh h : String) :
    isAnchoredByHostname fh h = anchoredSpec fh h := by
  unfold isAnchoredByHostname isAnchoredByHostnameL anchoredSpec
  by_cases h1 : fh.data.length = 0
  · simp [h1]
  · simp only [if_neg h1]
    by_cases h2 : fh.data.length > h.data.length
    · simp only [if_pos h2]
    · simp only [if_neg h2]
      cases hidx : stringIndexOf h.data fh.data with
      | none => rfl
      | some i => exact boundary_eq fh.data h.data i

/-- C1: the hostname anchoring predicate agrees everywhere with the
boundary rules as the specification states them (empty filter hostname
matches; a longer filter hostname fails; otherwise the leftmost occurrence
is validated by the position-0 prefix rules or, elsewhere, by the
preceding-dot rule together with the suffix/trailing-dot rules), and the
five quoted examples hold. -/
theorem claim_C1 :
    (∀ fh h : String, isAnchoredByHostname fh h = anchoredSpec fh h) ∧
    isAnchoredByHostname "" "x.com" = true ∧
    isAnchoredByHostname "com" "x.com" = true ∧
    isAnchoredByHostname "example.com" "notexample.com" = false ∧
    isAnchoredByHostname "ample.com" "example.com" = false ∧
    isAnchoredByHostname "x.com" "x.com" = true :=
  ⟨anchored_eq_spec, by decide, by decide, by decide, by decide, by decide⟩

/-- C4: the predicate only ever tries the leftmost occurrence.  Exhibited
inputs where the leftmost occurrence (at index j) fails boundary
validation, making the predicate answer false, although a later occurrence
(at index i > j) of the same filter hostname does satisfy the boundary
rules. -/
theorem claim_C4 :
    ∃ fh h : String, ∃ i j : Nat,
      isAnchoredByHostname fh h = false ∧
      stringIndexOf h.data fh.data = some j ∧
      j < i ∧
      occursAt fh.data h.data i = true ∧
      boundarySpec fh.data h.data i = true :=
  ⟨"example.com", "notexample.com.example.com", 15, 3, by decide, by decide,
    by decide, by decide, by decide⟩

theorem isSublist_cons_eq (c : Nat) (rest l : List Nat) :
    (c :: rest).isSublist l =
      (match idxOf l c with
       | none => false
       | some j => rest.isSublist (l.drop (j + 1))) := by
  induction l with
  | nil => rfl
  | cons x xs ih =>
    cases hcx : c == x with
    | true =>
      have hx : x = c := by
        rw [beq_iff_eq] at hcx
        exact hcx.symm
      simp only [List.isSublist, hcx, if_true, idxOf, if_pos hx]
      rfl
    | false =>
      have hx : ¬(x = c) := by
        intro h
        subst h
        simp at hcx
      simp only [List.isSublist, hcx]
      rw [if_neg Bool.false_ne_true, ih]
      simp only [idxOf, if_neg hx]
      cases hidx : idxOf xs c with
      | none => rfl
      | some j =>
        simp only [hidx, Option.map_some']
        rfl

theorem fuzzyLoop_eq_isSublist (rsig : List Nat) :
    ∀ (sig : List Nat) (start : Nat),
      fuzzyLoop rsig sig start = sig.isSublist (rsig.drop start) := by
  intro sig
  induction sig with
  | nil =>
    intro start
    simp [fuzzyLoop, List.isSublist]
  | cons c rest ih =>
    intro start
    rw [isSublist_cons_eq]
    show (match indexOfFrom rsig c start with
          | none => false
          | some j => fuzzyLoop rsig rest (j + 1)) = _
    unfold indexOfFrom
    cases hidx : idxOf (rsig.drop start) c with
    | none => rfl
    | some j =>
      simp only [Option.map_some']
      rw [ih (start + j + 1)]
      have hdd : (rsig.drop start).drop (j + 1) = rsig.drop (start + (j + 1)) :=
        List.drop_drop (j + 1) start rsig
      rw [hdd]
      have hadd : start + j + 1 = start + (j + 1) := by omega
      rw [hadd]

theorem fuzzyMatch_iff_sublist (sig rsig : List Nat) :
    fuzzyMatch sig rsig = true ↔ List.Sublist sig rsig := by
  unfold fuzzyMatch
  by_cases hlen : sig.length > rsig.length
  · simp only [if_pos hlen]
    constructor
    · intro hfalse; cases hfalse
    · intro hsub
      exact absurd hsub.length_le (by omega)
  · simp only [if_neg hlen]
    rw [fuzzyLoop_eq_isSublist rsig sig 0]
    show sig.isSublist rsig = true ↔ _
    exact List.isSublist_iff_sublist

/-- C2: the fuzzy matcher is exactly the order-preserving subsequence
test: a longer filter signature fails immediately, and otherwise the match
succeeds precisely when the filter signature embeds into the request
signature at strictly increasing positions; the quoted examples hold. -/
theorem claim_C2 :
    (∀ sig rsig : List Nat, fuzzyMatch sig rsig = true ↔ List.Sublist sig rsig) ∧
    fuzzyMatch [1, 2, 3] [0, 1, 5, 2, 9, 3] = true ∧
    fuzzyMatch [1, 3, 2] [1, 2, 3] = false ∧
    (∀ sig rsig : List Nat, sig.length > rsig.length → fuzzyMatch sig rsig = false) ∧
    (∀ (csig : String → List Nat) (f : NetworkFilter) (r : IRequest),
      (checkPatternFuzzyFilter csig f r).1 =
        fuzzyMatch f.fuzzySignature (effSig csig r)) :=
  ⟨fuzzyMatch_iff_sublist, by decide, by decide,
    fun sig rsig h => by unfold fuzzyMatch; rw [if_pos h],
    fun csig f r => by
      obtain ⟨u, h, sh, sg, hg, c, fs⟩ := r
      cases fs <;> rfl⟩

/-- C2 witness: the immediate-failure rule applied at a concrete pair of
signatures via the main theorem. -/
theorem claim_C2_witness : fuzzyMatch [1, 2] [7] = false :=
  claim_C2.2.2.2.1 [1, 2] [7] (by decide)

/-- C3: for a hostname-anchored filter that is neither regex nor
right-anchored nor fuzzy, the dispatcher's verdict is exactly the anchor
check on the hostnames conjoined with the URL remainder after the hostname
starting with the literal pattern; the /ads example matches on
example.com, and the same filter rejects every request whose hostname is
notexample.com regardless of its URL. -/
theorem claim_C3 :
    (∀ (csig : String → List Nat) (f : NetworkFilter) (r : IRequest),
      f.isHostnameAnchor = true → f.isRegex = false → f.isRightAnchor = false →
      f.isFuzzy = false →
      (checkPattern csig f r).1 =
        (isAnchoredByHostname f.hostname r.hostname &&
         f.filter.data.isPrefixOf (getUrlAfterHostname r.url f.hostname).data)) ∧
    (checkPattern (fun _ => []) exampleAdsFilter exampleAdsRequest).1 = true ∧
    (∀ (csig : String → List Nat) (r : IRequest), r.hostname = "notexample.com" →
      (checkPattern csig exampleAdsFilter r).1 = false) := by
  refine ⟨?_, ?_, ?_⟩
  · intro csig f r hHA hRegex hRight hFuzzy
    unfold checkPattern checkPatternHostnameAnchorFilter
    simp only [hHA, hRegex, hRight, hFuzzy, if_true, Bool.false_eq_true, if_false]
    cases hAnch : isAnchoredByHostname f.hostname r.hostname with
    | true => simp
    | false => simp
  · decide
  · intro csig r hr
    unfold checkPattern checkPatternHostnameAnchorFilter
    have hflags : exampleAdsFilter.isHostnameAnchor = true ∧
        exampleAdsFilter.isRegex = false ∧ exampleAdsFilter.isRightAnchor = false ∧
        exampleAdsFilter.isFuzzy = false := by
      refine ⟨rfl, rfl, rfl, rfl⟩
    simp only [hflags.1, hflags.2.1, hflags.2.2.1, hflags.2.2.2, if_true,
      Bool.false_eq_true, if_false, hr]
    have hAnch : isAnchoredByHostname exampleAdsFilter.hostname "notexample.com" = false := by
      decide
    simp only [hAnch, Bool.false_eq_true, if_false]

/-- C3 witness: the dispatch characterization applied to the concrete /ads
filter and example.com request. -/
theorem claim_C3_witness :
    (checkPattern (fun _ => []) exampleAdsFilter exampleAdsRequest).1 =
      (isAnchoredByHostname exampleAdsFilter.hostname exampleAdsRequest.hostname &&
       exampleAdsFilter.filter.data.isPrefixOf
         (getUrlAfterHostname exampleAdsRequest.url exampleAdsFilter.hostname).data) :=
  claim_C3.1 (fun _ => []) exampleAdsFilter exampleAdsRequest rfl rfl rfl rfl

/-- C7: a filter with a declared non-empty allow-domain set rejects every
request whose sourceGD and sourceHostname are both outside the set; the
rejection happens in the option evaluator, before the pattern dispatcher,
so the request comes back untouched (no signature-cache write). -/
theorem claim_C7 (csig : String → List Nat) (f : NetworkFilter) (r : IRequest)
    (hHas : f.hasOptDomains = true) (hNe : f.optDomains ≠ [])
    (hGD : f.optDomains.contains r.sourceGD = false)
    (hHost : f.optDomains.contains r.sourceHostname = false) :
    matchNetworkFilter csig f r = (false, r) := by
  have hOpts : checkOptions f r = false := by
    unfold checkOptions
    have hLen : decide (0 < f.optDomains.length) = true := by
      rw [decide_eq_true_iff]
      exact List.length_pos.mpr hNe
    rw [hHas, hLen, hGD, hHost]
    simp
  unfold matchNetworkFilter
  rw [hOpts]
  simp

/-- C7 witness: the allow-domain rejection applied at a concrete filter
and request outside the set. -/
theorem claim_C7_witness :
    matchNetworkFilter (fun _ => []) allowDomainFilter outsideRequest =
      (false, outsideRequest) :=
  claim_C7 (fun _ => []) allowDomainFilter outsideRequest rfl (by decide)
    (by decide) (by decide)

theorem fuzzy_spec (csig : String → List Nat) (f : NetworkFilter) (r : IRequest) :
    checkPatternFuzzyFilter csig f r =
      (fuzzyMatch f.fuzzySignature (effSig csig r),
        { r with fuzzySignature := some (effSig csig r) }) := by
  obtain ⟨u, h, sh, sg, hg, c, fs⟩ := r
  cases fs <;> rfl

theorem checkOptions_update (f : NetworkFilter) (r : IRequest)
    (v : Option (List Nat)) :
    checkOptions f { r with fuzzySignature := v } = checkOptions f r := by
  obtain ⟨u, h, sh, sg, hg, c, fs⟩ := r
  rfl

theorem checkPattern_snd (csig : String → List Nat) (f : NetworkFilter)
    (r : IRequest) :
    (checkPattern csig f r).2 = r ∨
    (checkPattern csig f r).2 = { r with fuzzySignature := some (effSig csig r) } := by
  unfold checkPattern checkPatternHostnameAnchorFuzzyFilter
  repeat' split
  all_goals first
    | (left; rfl)
    | (rw [fuzzy_spec]; right; rfl)

theorem checkPattern_fst_update (csig : String → List Nat) (f : NetworkFilter)
    (r : IRequest) :
    (checkPattern csig f { r with fuzzySignature := some (effSig csig r) }).1 =
      (checkPattern csig f r).1 := by
  obtain ⟨u, h, sh, sg, hg, c, fs⟩ := r
  cases fs with
  | some s => rfl
  | none =>
    unfold checkPattern checkPatternHostnameAnchorFuzzyFilter checkPatternFuzzyFilter effSig
    dsimp only
    repeat' split
    all_goals rfl

/-- C9: matching is deterministic across repeated calls: re-running the
matcher on the request state left behind by a first call (which may have
installed the memoized fuzzy signature) yields the same verdict. -/
theorem claim_C9 (csig : String → List Nat) (f : NetworkFilter) (r : IRequest) :
    (matchNetworkFilter csig f (matchNetworkFilter csig f r).2).1 =
      (matchNetworkFilter csig f r).1 := by
  cases hco : checkOptions f r with
  | false =>
    unfold matchNetworkFilter
    simp only [hco, Bool.false_eq_true, if_false]
  | true =>
    have h1 : matchNetworkFilter csig f r = checkPattern csig f r := by
      unfold matchNetworkFilter
      simp [hco]
    rw [h1]
    rcases checkPattern_snd csig f r with h2 | h2 <;> rw [h2]
    · rw [h1]
    · unfold matchNetworkFilter
      rw [checkOptions_update f r]
      simp only [hco, if_true]
      exact checkPattern_fst_update csig f r

theorem parse_rejects (hash : String → Nat) (line : String)
    (hguard : cosmeticExceptions (cosmeticParse1 line).1 (cosmeticParse1 line).2.1
      (cosmeticParse1 line).2.2 = true) :
    parseCosmeticFilter hash line = none := by
  unfold parseCosmeticFilter
  simp only [hguard, if_true]

/-- C5: the parser yields no filter whenever the parsed selector is empty,
ends in a closing curly bracket, contains another double-sharp separator,
or belongs to an unhide filter with no hostname scope; in particular the
scopeless unhide line of the example is dropped. -/
theorem claim_C5 :
    (∀ (hash : String → Nat) (line : String),
      ((cosmeticParse1 line).2.1 = "" ∨
       ['}'].isSuffixOf (cosmeticParse1 line).2.1.data = true ∨
       (stringIndexOf (cosmeticParse1 line).2.1.data ['#', '#']).isSome = true ∨
       (getBit (cosmeticParse1 line).1 maskUnhide = true ∧
        (cosmeticParse1 line).2.2 = "")) →
      parseCosmeticFilter hash line = none) ∧
    (∀ hash : String → Nat, parseCosmeticFilter hash "#@#.ad" = none) := by
  constructor
  · intro hash line hcond
    apply parse_rejects
    unfold cosmeticExceptions
    rcases hcond with h | h | h | ⟨h1, h2⟩
    · rw [h]
      simp
    · rw [h]
      simp
    · rw [h]
      simp
    · rw [h1, h2]
      simp
  · intro hash
    apply parse_rejects
    decide

/-- C5 witness: the rejection theorem applied at the concrete scopeless
unhide line, discharging the unhide-without-hostnames disjunct. -/
theorem claim_C5_witness : parseCosmeticFilter (fun _ => 0) "#@#.ad" = none :=
  claim_C5.1 (fun _ => 0) "#@#.ad"
    (Or.inr (Or.inr (Or.inr ⟨by decide, by decide⟩)))

/-- C8: a parsed filter carrying the unhide flag always has a non-empty
hostnames scope, and the only mutating operation (the hostnames-array
cache fill of getHostnames) never touches the flag mask, the selector or
the hostnames text. -/
theorem claim_C8 :
    (∀ (hash : String → Nat) (line : String) (f : CosmeticFilter),
      parseCosmeticFilter hash line = some f → isUnhide f = true →
      f.hostnames ≠ "") ∧
    (∀ f : CosmeticFilter,
      (getHostnames f).2.mask = f.mask ∧
      (getHostnames f).2.selector = f.selector ∧
      (getHostnames f).2.hostnames = f.hostnames) := by
  constructor
  · intro hash line f hparse hunhide
    unfold parseCosmeticFilter at hparse
    dsimp only at hparse
    cases hguard : cosmeticExceptions (cosmeticParse1 line).1 (cosmeticParse1 line).2.1
        (cosmeticParse1 line).2.2 with
    | true =>
      rw [hguard] at hparse
      simp at hparse
    | false =>
      rw [hguard] at hparse
      simp only [Bool.false_eq_true, if_false, Option.some.injEq] at hparse
      obtain rfl := hparse.symm
      unfold cosmeticExceptions at hguard
      rw [Bool.or_eq_false_iff, Bool.or_eq_false_iff, Bool.or_eq_false_iff] at hguard
      have hand := hguard.2
      rw [Bool.and_eq_false_iff] at hand
      unfold isUnhide at hunhide
      cases hand with
      | inl h => rw [hunhide] at h; cases h
      | inr h =>
        intro hempty
        rw [decide_eq_false_iff_not] at h
        apply h
        dsimp only at hempty
        rw [hempty]
        rfl
  · intro f
    obtain ⟨i, m, s, hn, arr⟩ := f
    cases arr with
    | some a => exact ⟨rfl, rfl, rfl⟩
    | none => exact ⟨rfl, rfl, rfl⟩

/-- C8 witness: the invariant applied at a concrete parsed unhide
filter with a hostname scope. -/
theorem claim_C8_witness :
    (⟨0, 1, ".ad", "foo.com", none⟩ : CosmeticFilter).hostnames ≠ "" :=
  claim_C8.1 (fun _ => 0) "foo.com#@#.ad" ⟨0, 1, ".ad", "foo.com", none⟩
    (by decide) (by decide)

theorem stringIndexOf_single_none (l : List Char) (c : Char) (h : c ∉ l) :
    stringIndexOf l [c] = none := by
  unfold stringIndexOf
  rw [List.find?_eq_none]
  intro i hi hpre
  rw [List.isPrefixOf_iff_prefix] at hpre
  exact h (List.mem_of_mem_drop (hpre.sublist.subset (List.mem_singleton_self c)))

/-- C10 (amended): a line with no separator sharp at all is not rejected
for that reason: when additionally its first character is not the unhide
marker and the rest of the line is non-empty, does not end in a closing
curly bracket, contains no double sharp, and does not start the script
sub-grammar, the parser returns a filter whose selector is the line minus
its first character, with empty hostnames and no flags set. -/
theorem claim_C10 (hash : String → Nat) (line : String)
    (h1 : '#' ∉ line.data)
    (h2 : charAt line.data 0 ≠ some '@')
    (h3 : line.data.drop 1 ≠ [])
    (h4 : ['}'].isSuffixOf (line.data.drop 1) = false)
    (h5 : (stringIndexOf (line.data.drop 1) ['#', '#']).isSome = false)
    (h6 : "script:".data.isPrefixOf (line.data.drop 1) = false) :
    parseCosmeticFilter hash line =
      some ⟨hash line, 0, String.mk (line.data.drop 1), "", none⟩ := by
  have hio : stringIndexOf line.data ['#'] = none := stringIndexOf_single_none _ _ h1
  have hb2 : (charAt line.data 0 == some '@') = false := by
    rw [beq_eq_false_iff_ne]
    exact h2
  have hparsed : cosmeticParse1 line = (0, String.mk (line.data.drop 1), "") := by
    unfold cosmeticParse1
    simp only [hio]
    rw [show ((-1 : Int) + 1) = (0 : Int) from by decide]
    simp only [hb2, Bool.false_eq_true, if_false]
    rw [show ((0 : Int) + 1) = (1 : Int) from by decide]
    simp only [if_neg (show ¬((-1 : Int) > 0) from by decide)]
    rw [show jsSubstrFrom line.data (1 : Int) = line.data.drop 1 from rfl]
    simp only [h6, Bool.false_eq_true, if_false]
  unfold parseCosmeticFilter
  rw [hparsed]
  dsimp only
  have hguard : cosmeticExceptions 0 (String.mk (line.data.drop 1)) "" = false := by
    unfold cosmeticExceptions
    have hlen : decide ((String.mk (line.data.drop 1)).data.length = 0) = false := by
      rw [decide_eq_false_iff_not]
      intro hzero
      exact h3 (List.length_eq_zero.mp hzero)
    have hbit : getBit 0 maskUnhide = false := rfl
    rw [hlen, hbit]
    show (false || ['}'].isSuffixOf (line.data.drop 1) ||
      (stringIndexOf (line.data.drop 1) ['#', '#']).isSome ||
      (false && decide (("" : String).data.length = 0))) = false
    rw [h4, h5]
    rfl
  rw [hguard]
  rfl

/-- C10 witness: a separator-free line parsed through the amended
theorem at a concrete input. -/
theorem claim_C10_witness :
    parseCosmeticFilter (fun _ => 0) "x.ad-banner" =
      some ⟨0, 0, String.mk ("x.ad-banner".data.drop 1), "", none⟩ :=
  claim_C10 (fun _ => 0) "x.ad-banner" (by decide) (by decide) (by decide)
    (by decide) (by decide) (by decide)

/-- C10 counterexample: the line xscript:inject(foo) satisfies every
hypothesis of the original claim (no sharp, first character not the
unhide marker, non-empty remainder not ending in a closing curly bracket
and containing no double sharp), yet the parser does not return the
remainder of the line as selector with a clear mask: the script
sub-grammar fires, the selector becomes the inject argument and the
script-inject flag is set. -/
theorem claim_C10_counterexample :
    ('#' ∉ "xscript:inject(foo)".data) ∧
    charAt "xscript:inject(foo)".data 0 ≠ some '@' ∧
    "xscript:inject(foo)".data.drop 1 ≠ [] ∧
    ['}'].isSuffixOf ("xscript:inject(foo)".data.drop 1) = false ∧
    (stringIndexOf ("xscript:inject(foo)".data.drop 1) ['#', '#']).isSome = false ∧
    (parseCosmeticFilter (fun _ => 0) "xscript:inject(foo)").map
        CosmeticFilter.selector = some "foo" ∧
    (parseCosmeticFilter (fun _ => 0) "xscript:inject(foo)").map
        CosmeticFilter.selector ≠
      some (String.mk ("xscript:inject(foo)".data.drop 1)) ∧
    (parseCosmeticFilter (fun _ => 0) "xscript:inject(foo)").map
        (fun f => getBit f.mask maskScriptInject) = some true := by
  refine ⟨by decide, by decide, by decide, by decide, by decide, ?_, ?_, ?_⟩
  · decide
  · decide
  · decide

theorem find_congr_mem {α : Type} (l : List α) (p q : α → Bool)
    (h : ∀ a ∈ l, p a = q a) : l.find? p = l.find? q := by
  induction l with
  | nil => rfl
  | cons x xs ih =>
    rw [List.find?_cons, List.find?_cons, h x (List.mem_cons_self x xs)]
    cases hq : q x with
    | true => rfl
    | false => exact ih (fun a ha => h a (List.mem_cons_of_mem x ha))

theorem findLast_aux (p : Char → Bool) (d : Char) :
    ∀ r : List Char,
      (List.range r.length).reverse.find? (fun i => p (r.reverse.getD i d)) =
        (idxOfP p r).map (fun k => r.length - 1 - k) := by
  intro r
  induction r with
  | cons x xs ih =>
    rw [show (x :: xs).length = xs.length + 1 from rfl, List.range_succ,
      List.reverse_append]
    simp only [List.reverse_cons, List.reverse_nil, List.nil_append,
      List.singleton_append]
    rw [List.find?_cons]
    have hx : (xs.reverse ++ [x]).getD xs.length d = x := by
      rw [List.getD_eq_getElem?_getD, List.getElem?_append]
      simp [List.length_reverse]
    simp only [hx]
    cases hpx : p x with
    | true =>
      simp only [idxOfP, hpx, if_true, Option.map_some']
      rfl
    | false =>
      simp only [idxOfP, hpx, Bool.false_eq_true, if_false]
      have hcongr : (List.range xs.length).reverse.find?
            (fun i => p ((xs.reverse ++ [x]).getD i d)) =
          (List.range xs.length).reverse.find? (fun i => p (xs.reverse.getD i d)) := by
        apply find_congr_mem
        intro i hi
        have hilt : i < xs.length := by
          rw [List.mem_reverse, List.mem_range] at hi
          exact hi
        have : (xs.reverse ++ [x]).getD i d = xs.reverse.getD i d := by
          rw [List.getD_eq_getElem?_getD, List.getD_eq_getElem?_getD,
            List.getElem?_append]
          rw [if_pos (by rw [List.length_reverse]; exact hilt)]
        rw [this]
      rw [hcongr, ih]
      cases hk : idxOfP p xs with
      | none => rfl
      | some k =>
        simp only [Option.map_some']
        congr 1
        omega
  | nil => rfl

theorem lastCombinator_eq (s : List Char) :
    lastCombinator s = lastCombinatorAmended s := by
  unfold lastCombinator lastCombinatorAmended
  have h := findLast_aux isCombinator ' ' s.reverse
  simp only [List.reverse_reverse, List.length_reverse] at h
  rw [h]
  cases hk : idxOfP isCombinator s.reverse with
  | none => rfl
  | some k => rfl

/-- C6 (amended): for every non-script cosmetic filter the tokenizer
splits at the last combinator character found anywhere in the selector
(the end-to-start scan does not track bracket depth); from that split
point the bracketed spans are excluded and the trailing slice is emitted
only when the depth counter from the split point ends at zero; tokenizing
the selector .a[b=c].d still yields exactly the tokens of .a and .d. -/
theorem claim_C6 :
    (∀ (tok : String → List Nat) (f : CosmeticFilter),
      isScriptInject f = false → isScriptBlock f = false →
      getTokensSelector tok f = getTokensSelectorAmended tok f) ∧
    (∀ tok : String → List Nat,
      getTokensSelector tok ⟨0, 0, ".a[b=c].d", "", none⟩ =
        tok ".a" ++ tok ".d") := by
  constructor
  · intro tok f hInj hBlk
    unfold getTokensSelector getTokensSelectorAmended
    rw [lastCombinator_eq]
  · intro tok
    show tokensFromSplit tok ".a[b=c].d".data (lastCombinator ".a[b=c].d".data) =
      tok ".a" ++ tok ".d"
    rfl

/-- C6 witness: the amended characterization applied at a concrete
tokenizer and non-script filter. -/
theorem claim_C6_witness :
    getTokensSelector (fun s => [s.data.length]) ⟨0, 0, ".x", "", none⟩ =
      getTokensSelectorAmended (fun s => [s.data.length]) ⟨0, 0, ".x", "", none⟩ :=
  claim_C6.1 (fun s => [s.data.length]) ⟨0, 0, ".x", "", none⟩ rfl rfl

/-- C6 counterexample: on the selector .a[b>c].d the combinator scan of
the source does not track bracket depth, takes the bracketed combinator
as split point, drives the depth counter negative and returns no tokens,
while the claim (split at the last top-level combinator, brackets
tracked) predicts the tokens of .a and .d. -/
theorem claim_C6_counterexample :
    getTokensSelector (fun s => [s.data.length]) ⟨0, 0, ".a[b>c].d", "", none⟩ = [] ∧
    getTokensSelectorSpec (fun s => [s.data.length]) ⟨0, 0, ".a[b>c].d", "", none⟩ =
      [2, 2] ∧
    getTokensSelector (fun s => [s.data.length]) ⟨0, 0, ".a[b>c].d", "", none⟩ ≠
      getTokensSelectorSpec (fun s => [s.data.length]) ⟨0, 0, ".a[b>c].d", "", none⟩ := by
  refine ⟨by decide, by decide, by decide⟩
